import Mathlib

/-!
Verification of the table-to-text converter
(`converters/text/table_to_text.py`): a shallow embedding of the cell/row
text extraction, border detection, and the ascii/tabs/plain/auto rendering
modes, together with theorems checking the specified properties.
-/

namespace TableToText

/-! ### Python string primitives

These mirror the exact semantics of the Python string operations used by
the converter: `s * n` (repetition, empty for negative counts),
`sep.join(list)`, `s.ljust(w)`, and `s.replace("\n", " ")` (single-character
pattern, hence a character map). -/

/-- Python `c * n` for a single character `c` and a natural count. -/
def pyRepeat (c : Char) (n : Nat) : String := ⟨List.replicate n c⟩

/-- Python `c * n` for an integer count: negative counts give `""`. -/
def pyRepeatInt (c : Char) (n : Int) : String :=
  if n ≤ 0 then "" else pyRepeat c n.toNat

/-- Python `sep.join(l)`. -/
def pyJoin (sep : String) : List String → String
  | [] => ""
  | [x] => x
  | x :: y :: rest => x ++ sep ++ pyJoin sep (y :: rest)

/-- Python `s.ljust(w)` (pad on the right with spaces up to width `w`). -/
def pyLjust (s : String) (w : Nat) : String :=
  s ++ pyRepeat ' ' (w - s.length)

/-- Python `s.replace("\n", " ")`: the pattern is a single character, so
replacement is a character-wise map. -/
def pyReplaceNl (s : String) : String :=
  ⟨s.data.map (fun ch => if ch = '\n' then ' ' else ch)⟩

/-! ### Data model

Shallow embedding of the document-model classes the converter reads
(`models/document/*`): a border declaration carries an optional style
string `val`; table properties carry optional `tblBorders` with six edges;
cell properties carry optional `tcBorders` with four edges.  Cell content
is an ordered list of paragraphs and nested tables. -/

/-- A single border declaration (`w:top`, `w:left`, ...): its `val` is the
optional style string. -/
structure Border where
  val : Option String
deriving DecidableEq

/-- Table-level border declarations (`tblBorders`). -/
structure TblBorders where
  top : Option Border
  bottom : Option Border
  left : Option Border
  right : Option Border
  inside_h : Option Border
  inside_v : Option Border
deriving DecidableEq

/-- Table properties: the converter only reads `tbl_borders`. -/
structure TblPr where
  tbl_borders : Option TblBorders
deriving DecidableEq

/-- Cell-level border declarations (`tcBorders`). -/
structure TcBorders where
  top : Option Border
  bottom : Option Border
  left : Option Border
  right : Option Border
deriving DecidableEq

/-- Cell properties: the converter only reads `tc_borders`. -/
structure TcPr where
  tc_borders : Option TcBorders
deriving DecidableEq

/-- Modelled from the spec: `paragraph_to_text` (the run/markdown renderer in
`converters/text/paragraph_to_text.py`, not present under `src/`) renders a
paragraph's inline content to a plain string.  The paragraph is modelled
abstractly by its rendered text, which is all the table converter consumes. -/
structure Paragraph where
  rendered : String
deriving DecidableEq

mutual
/-- A table: optional table properties and an ordered row list (`tr`). -/
inductive Table where
  | mk : Option TblPr → List TableRow → Table

/-- A table row: an ordered cell list (`tc`). -/
inductive TableRow where
  | mk : List TableCell → TableRow

/-- A table cell: optional cell properties and ordered block content. -/
inductive TableCell where
  | mk : Option TcPr → List CellContent → TableCell

/-- Cell content: a paragraph or a nested table. -/
inductive CellContent where
  | para : Paragraph → CellContent
  | tbl : Table → CellContent
end

/-- Accessor for a table's properties. -/
def Table.tbl_pr : Table → Option TblPr
  | .mk p _ => p

/-- Accessor for a table's row list. -/
def Table.tr : Table → List TableRow
  | .mk _ r => r

/-- Accessor for a row's cell list. -/
def TableRow.tc : TableRow → List TableCell
  | .mk c => c

/-- Accessor for a cell's properties. -/
def TableCell.tc_pr : TableCell → Option TcPr
  | .mk p _ => p

/-- Accessor for a cell's content list. -/
def TableCell.content : TableCell → List CellContent
  | .mk _ c => c

/-- Modelled from the spec: `paragraph_to_text` returns the paragraph's
rendered plain text. -/
def paragraph_to_text (p : Paragraph) : String := p.rendered

/-- The rendering mode of the table converter (`TableMode` in the source:
the string literals `"ascii" | "tabs" | "plain" | "auto"`). -/
inductive TableMode where
  | ascii | tabs | plain | auto
deriving DecidableEq

/-! ### Cell content extraction -/

/-- Embeds `cell_to_text`: collect the rendered text of each `Paragraph` in the
cell's content, keeping only truthy (non-empty) texts, and join with `"\n"`.
`None` yields `""`. -/
def cell_to_text : Option TableCell → String
  | none => ""
  | some c =>
    pyJoin "\n" (c.content.filterMap (fun cc =>
      match cc with
      | .para p =>
        let t := paragraph_to_text p
        if t = "" then none else some t
      | .tbl _ => none))

/-- Embeds `row_to_text`: join the cells' texts with the separator; `None` yields `""`. -/
def row_to_text (row : Option TableRow) (separator : String) : String :=
  match row with
  | none => ""
  | some r => pyJoin separator (r.tc.map (fun c => cell_to_text (some c)))

/-! ### Border detection -/

/-- Embeds `BorderInfo`: which borders are present on the table. -/
structure BorderInfo where
  top : Bool := false
  bottom : Bool := false
  left : Bool := false
  right : Bool := false
  inside_h : Bool := false
  inside_v : Bool := false
deriving DecidableEq

/-- Embeds `BorderInfo.has_any`: whether any border is present. -/
def BorderInfo.has_any (i : BorderInfo) : Bool :=
  i.top || i.bottom || i.left || i.right || i.inside_h || i.inside_v

/-- The all-false `BorderInfo` (the dataclass defaults). -/
def BorderInfo.none : BorderInfo := {}

/-- Embeds `_is_border_visible`: the border object exists, its `val` exists, and the
value is neither `"none"` nor `"nil"`. -/
def is_border_visible (b : Option Border) : Bool :=
  match b with
  | Option.none => false
  | Option.some bb =>
    match bb.val with
    | Option.none => false
    | Option.some v => !(v == "none" || v == "nil")

/-- The table-level phase of `detect_borders`: the six flags read from
`table.tbl_pr.tbl_borders` when both are present, else all false. -/
def tableLevelInfo (pr : Option TblPr) : BorderInfo :=
  match pr with
  | Option.none => {}
  | Option.some p =>
    match p.tbl_borders with
    | Option.none => {}
    | Option.some b =>
      { top := is_border_visible b.top
        bottom := is_border_visible b.bottom
        left := is_border_visible b.left
        right := is_border_visible b.right
        inside_h := is_border_visible b.inside_h
        inside_v := is_border_visible b.inside_v }

/-- Pointwise `or` of two `BorderInfo`s (the cell phase only ever sets flags
to `True`, so its sequential mutation is an `or`-accumulation). -/
def orInfo (a b : BorderInfo) : BorderInfo :=
  { top := a.top || b.top
    bottom := a.bottom || b.bottom
    left := a.left || b.left
    right := a.right || b.right
    inside_h := a.inside_h || b.inside_h
    inside_v := a.inside_v || b.inside_v }

/-- The flags one cell contributes in the cell-level phase of
`detect_borders`, at row index `ri` of `nrows` rows and column index `ci` of
`ncells` cells in its row. -/
def cellContrib (nrows ncells ri ci : Nat) (c : TableCell) : BorderInfo :=
  match c.tc_pr with
  | Option.none => {}
  | Option.some pr =>
    match pr.tc_borders with
    | Option.none => {}
    | Option.some cb =>
      { top := decide (ri = 0) && is_border_visible cb.top
        bottom := decide (ri = nrows - 1) && is_border_visible cb.bottom
        left := decide (ci = 0) && is_border_visible cb.left
        right := decide (ci = ncells - 1) && is_border_visible cb.right
        inside_h := (decide (ri < nrows - 1) && is_border_visible cb.bottom)
          || (decide (0 < ri) && is_border_visible cb.top)
        inside_v := (decide (ci < ncells - 1) && is_border_visible cb.right)
          || (decide (0 < ci) && is_border_visible cb.left) }

/-- The inner loop of the cell-level phase: fold the contributions of the
cells of one row, with `ci` the index of the first cell of the list. -/
def foldCells (nrows ncells ri : Nat) : BorderInfo → Nat → List TableCell → BorderInfo
  | acc, _, [] => acc
  | acc, ci, c :: cs =>
    foldCells nrows ncells ri (orInfo acc (cellContrib nrows ncells ri ci c)) (ci + 1) cs

/-- The outer loop of the cell-level phase: fold over the rows, with `ri`
the index of the first row of the list. -/
def foldRows (nrows : Nat) : BorderInfo → Nat → List TableRow → BorderInfo
  | acc, _, [] => acc
  | acc, ri, r :: rs =>
    foldRows nrows (foldCells nrows r.tc.length ri acc 0 r.tc) (ri + 1) rs

/-- Embeds `detect_borders`: table-level flags first; the cell-level aggregation
runs only when no table-level flag is set and the row list is non-empty. -/
def detect_borders (t : Table) : BorderInfo :=
  let info := tableLevelInfo t.tbl_pr
  if info.has_any || t.tr.isEmpty then info
  else foldRows t.tr.length info 0 t.tr

/-- Embeds `has_visible_borders`: whether `detect_borders` finds any flag. -/
def has_visible_borders (t : Table) : Bool :=
  (detect_borders t).has_any

/-! ### ASCII box mode -/

/-- The `rows_data` of `table_to_ascii`: each cell's text with embedded
newlines flattened to spaces. -/
def rowsData (trs : List TableRow) : List (List String) :=
  trs.map (fun r => r.tc.map (fun c => pyReplaceNl (cell_to_text (some c))))

/-- The `max_cols` of `table_to_ascii`: the maximum row length. -/
def maxCols (rd : List (List String)) : Nat :=
  rd.foldl (fun m r => max m r.length) 0

/-- Pad one row with `""` entries up to `n` columns. -/
def padRow (n : Nat) (r : List String) : List String :=
  r ++ List.replicate (n - r.length) ""

/-- One column width: start from the minimum 1 and fold the lengths of the
entries of column `i` over the (padded) rows, guarded by the row length. -/
def colWidth (rd : List (List String)) (i : Nat) : Nat :=
  rd.foldl (fun m r => if i < r.length then max m (r.getD i "").length else m) 1

/-- The `col_widths` list over `n` columns. -/
def colWidths (rd : List (List String)) (n : Nat) : List Nat :=
  (List.range n).map (colWidth rd)

/-- The `max_cols` of a row list. -/
def maxColsOf (trs : List TableRow) : Nat := maxCols (rowsData trs)

/-- The padded `rows_data` of a row list. -/
def paddedOf (trs : List TableRow) : List (List String) :=
  (rowsData trs).map (padRow (maxColsOf trs))

/-- The `col_widths` of a row list. -/
def widthsOf (trs : List TableRow) : List Nat :=
  colWidths (paddedOf trs) (maxColsOf trs)

/-- Embeds `build_h_line`: a horizontal rule.  With `inside_v`, per-column dash
runs of width `w+2` joined with `+`; otherwise one dash run sized with
Python integer arithmetic (`sum(col_widths) + 3*(max_cols-1) + 2`, which is
negative for zero columns and then yields the empty string). -/
def build_h_line (ws : List Nat) (n : Nat) (left right inside_v : Bool) : String :=
  let inner :=
    if inside_v then pyJoin "+" (ws.map (fun w => pyRepeat '-' (w + 2)))
    else pyRepeatInt '-' ((ws.sum : Int) + 3 * ((n : Int) - 1) + 2)
  (if left then "+" else "-") ++ inner ++ (if right then "+" else "-")

/-- Embeds `build_data_row`: one content line; each cell is rendered as
`" " + ljust(width) + " "`, joined with `|` or a space, between the edge
characters. -/
def build_data_row (ws : List Nat) (row : List String) (left right inside_v : Bool) : String :=
  let cells := List.zipWith (fun c w => " " ++ pyLjust c w ++ " ") row ws
  let inner := if inside_v then pyJoin "|" cells else pyJoin " " cells
  (if left then "|" else " ") ++ inner ++ (if right then "|" else " ")

/-- The data-row loop of `table_to_ascii`: one content line per row, with a
copy of the horizontal rule between consecutive rows when `inside_h`. -/
def dataLines (ws : List Nat) (info : BorderInfo) (hline : String) :
    List (List String) → List String
  | [] => []
  | [r] => [build_data_row ws r info.left info.right info.inside_v]
  | r :: r2 :: rest =>
    build_data_row ws r info.left info.right info.inside_v ::
      (if info.inside_h then hline :: dataLines ws info hline (r2 :: rest)
       else dataLines ws info hline (r2 :: rest))

/-- The list of output lines of `table_to_ascii`: optional top rule, the
data rows with optional inter-row rules, optional bottom rule. -/
def asciiLines (trs : List TableRow) (info : BorderInfo) : List String :=
  let ws := widthsOf trs
  let n := maxColsOf trs
  let hline := build_h_line ws n info.left info.right info.inside_v
  (if info.top then [hline] else [])
    ++ dataLines ws info hline (paddedOf trs)
    ++ (if info.bottom then [hline] else [])

/-- Embeds `table_to_ascii`: empty for an empty row list, else the joined lines,
rendered with the given `BorderInfo` or with `detect_borders` when absent. -/
def table_to_ascii (t : Table) (bi : Option BorderInfo) : String :=
  if t.tr.isEmpty then ""
  else if (rowsData t.tr).isEmpty then ""
  else
    pyJoin "\n" (asciiLines t.tr
      (match bi with
       | Option.some b => b
       | Option.none => detect_borders t))

/-! ### Tabs, plain, and the entry point -/

/-- Embeds `table_to_tabs`: rows joined with `"\n"`, cells with `"\t"`. -/
def table_to_tabs (t : Table) : String :=
  if t.tr.isEmpty then ""
  else pyJoin "\n" (t.tr.map (fun r => row_to_text (some r) "\t"))

/-- Embeds `table_to_plain`: rows joined with `"\n"`, cells with two spaces. -/
def table_to_plain (t : Table) : String :=
  if t.tr.isEmpty then ""
  else pyJoin "\n" (t.tr.map (fun r => row_to_text (some r) "  "))

/-- The full-box `BorderInfo` used by the explicit `ascii` mode. -/
def fullBorders : BorderInfo :=
  { top := true, bottom := true, left := true, right := true
    inside_h := true, inside_v := true }

/-- Embeds `table_to_text`: `None` and empty-row tables yield `""`; `auto` resolves
to `ascii` (with detected borders) when any border is visible, else to
`tabs`; explicit `ascii` forces the full box. -/
def table_to_text (t? : Option Table) (mode : TableMode) : String :=
  match t? with
  | Option.none => ""
  | Option.some t =>
    if t.tr.isEmpty then ""
    else
      let actual : TableMode :=
        match mode with
        | .auto => if has_visible_borders t then .ascii else .tabs
        | m => m
      match actual with
      | .ascii =>
        match mode with
        | .ascii => table_to_ascii t (some fullBorders)
        | _ => table_to_ascii t none
      | .tabs => table_to_tabs t
      | _ => table_to_plain t

/-! ### Spec-side definitions

Definitions written after the specification's words, to be compared with
the embedded code. -/

/-- Following the spec's words for `cell_to_text`: the rendered texts of the
cell's paragraphs, one entry per paragraph, in document order. -/
def cellParagraphTexts (c : TableCell) : List String :=
  c.content.filterMap (fun cc =>
    match cc with
    | .para p => some (paragraph_to_text p)
    | .tbl _ => none)

/-- Following the spec's words for the column widths: the maximum over all
rows of the length of that column's cell text (newlines flattened), with
minimum 1. -/
def specColWidth (trs : List TableRow) (i : Nat) : Nat :=
  max 1 (((rowsData trs).map (fun r => (r.getD i "").length)).foldl max 0)

/-- A cell declares no visible border on any of its four edges. -/
def cellNoVisibleBorders (c : TableCell) : Bool :=
  match c.tc_pr with
  | Option.none => true
  | Option.some pr =>
    match pr.tc_borders with
    | Option.none => true
    | Option.some cb =>
      !is_border_visible cb.top && !is_border_visible cb.bottom
        && !is_border_visible cb.left && !is_border_visible cb.right

/-- No visible border is declared at the table level or at any cell level. -/
def noDeclaredBorders (t : Table) : Bool :=
  !(tableLevelInfo t.tbl_pr).has_any
    && t.tr.all (fun r => r.tc.all cellNoVisibleBorders)

/-- The interior length of every ASCII output line: 0 for zero columns,
else `sum(col_widths) + 3*n - 1`. -/
def innerLen (ws : List Nat) (n : Nat) : Nat :=
  if n = 0 then 0 else ws.sum + 3 * n - 1

/-- The uniform length of the ASCII output lines of a row list. -/
def asciiLineLenOf (trs : List TableRow) : Nat :=
  innerLen (widthsOf trs) (maxColsOf trs) + 2

/-! ### Helper lemmas -/

theorem length_pyRepeat (c : Char) (n : Nat) : (pyRepeat c n).length = n := by
  simp [pyRepeat, String.length_mk]

theorem length_pyRepeatInt (c : Char) (n : Int) : (pyRepeatInt c n).length = n.toNat := by
  unfold pyRepeatInt
  split
  · simp [String.length]
    omega
  · rw [length_pyRepeat]

theorem length_pyLjust (s : String) (w : Nat) (h : s.length ≤ w) :
    (pyLjust s w).length = w := by
  rw [pyLjust, String.length_append, length_pyRepeat]
  omega

theorem length_pyJoin (sep : String) (l : List String) :
    (pyJoin sep l).length = (l.map String.length).sum + sep.length * (l.length - 1) := by
  induction l with
  | nil => rfl
  | cons x xs ih =>
    cases xs with
    | nil => simp [pyJoin]
    | cons y rest =>
      rw [pyJoin, String.length_append, String.length_append, ih]
      simp only [List.map_cons, List.sum_cons, List.length_cons, Nat.add_sub_cancel]
      rw [Nat.mul_succ]
      omega

theorem init_le_foldl {α : Type} (g : Nat → α → Nat) (hg : ∀ m x, m ≤ g m x)
    (l : List α) (a : Nat) : a ≤ l.foldl g a := by
  induction l generalizing a with
  | nil => exact le_rfl
  | cons x xs ih => exact le_trans (hg a x) (ih (g a x))

theorem foldl_max_comm {α : Type} (f : α → Nat) (l : List α) (a : Nat) :
    l.foldl (fun m x => max m (f x)) a = max a (l.foldl (fun m x => max m (f x)) 0) := by
  induction l generalizing a with
  | nil => simp
  | cons x xs ih =>
    simp only [List.foldl_cons]
    rw [ih (max a (f x)), ih (max 0 (f x))]
    rw [Nat.zero_max, Nat.max_assoc]

theorem mem_le_foldl_max {α : Type} (f : α → Nat) :
    ∀ (l : List α) (x : α), x ∈ l → ∀ (a : Nat),
      f x ≤ l.foldl (fun m y => max m (f y)) a := by
  intro l
  induction l with
  | nil => intro x hx; cases hx
  | cons y ys ih =>
    intro x hx a
    simp only [List.foldl_cons]
    rcases List.mem_cons.mp hx with rfl | hmem
    · exact le_trans (Nat.le_max_right a (f x))
        (init_le_foldl _ (fun m z => Nat.le_max_left m (f z)) ys _)
    · exact ih x hmem _

theorem foldl_if_guard (rd : List (List String)) (i : Nat)
    (h : ∀ r ∈ rd, i < r.length) (a : Nat) :
    rd.foldl (fun m r => if i < r.length then max m (r.getD i "").length else m) a
      = rd.foldl (fun m r => max m (r.getD i "").length) a := by
  induction rd generalizing a with
  | nil => rfl
  | cons r rest ih =>
    simp only [List.foldl_cons, if_pos (h r (by simp))]
    exact ih (fun r hr => h r (by simp [hr])) _

theorem getD_pad (r : List String) (k i : Nat) :
    (r ++ List.replicate k "").getD i "" = r.getD i "" := by
  simp only [List.getD, List.get?_eq_getElem?]
  rw [List.getElem?_append]
  split
  · rfl
  · rw [List.getElem?_replicate, List.getElem?_eq_none (by omega)]
    split <;> rfl

theorem mem_rowsData_length_le (trs : List TableRow) (r : List String)
    (hr : r ∈ rowsData trs) : r.length ≤ maxColsOf trs := by
  exact mem_le_foldl_max List.length (rowsData trs) r hr 0

theorem length_padRow (n : Nat) (r : List String) :
    (padRow n r).length = r.length + (n - r.length) := by
  simp [padRow]

theorem mem_padded_length (trs : List TableRow) (r : List String)
    (hr : r ∈ paddedOf trs) : r.length = maxColsOf trs := by
  obtain ⟨r0, hr0, rfl⟩ := List.mem_map.mp hr
  have hle := mem_rowsData_length_le trs r0 hr0
  rw [length_padRow]
  omega

theorem length_widthsOf (trs : List TableRow) :
    (widthsOf trs).length = maxColsOf trs := by
  simp [widthsOf, colWidths]

theorem colWidth_padded_eq (trs : List TableRow) (i : Nat) (hi : i < maxColsOf trs) :
    colWidth (paddedOf trs) i
      = max 1 (((rowsData trs).map (fun r => (r.getD i "").length)).foldl max 0) := by
  have hguard : ∀ r ∈ paddedOf trs, i < r.length := by
    intro r hr
    rw [mem_padded_length trs r hr]
    exact hi
  rw [colWidth, foldl_if_guard _ _ hguard]
  unfold paddedOf
  rw [List.foldl_map]
  have hfun : (fun (m : Nat) (r : List String) =>
      max m ((padRow (maxColsOf trs) r).getD i "").length)
      = fun m r => max m (r.getD i "").length := by
    funext m r
    rw [padRow, getD_pad]
  rw [hfun, List.foldl_map, foldl_max_comm]

theorem widthsOf_getD (trs : List TableRow) (i : Nat) (hi : i < maxColsOf trs) :
    (widthsOf trs).getD i 0 = colWidth (paddedOf trs) i := by
  simp [widthsOf, colWidths, List.getD, List.getElem?_map, List.getElem?_range hi]

theorem mem_le_colWidth (i : Nat) (r : List String) :
    ∀ (rd : List (List String)), r ∈ rd → i < r.length → ∀ (a : Nat),
      (r.getD i "").length
        ≤ rd.foldl (fun m row => if i < row.length then max m (row.getD i "").length else m) a := by
  intro rd
  induction rd with
  | nil => intro h; cases h
  | cons row rest ih =>
    intro hr hi a
    have hmono : ∀ (m : Nat) (x : List String),
        m ≤ (if i < x.length then max m (x.getD i "").length else m) := by
      intro m x
      split
      · exact Nat.le_max_left _ _
      · exact le_rfl
    simp only [List.foldl_cons]
    rcases List.mem_cons.mp hr with rfl | hmem
    · refine le_trans ?_ (init_le_foldl _ hmono rest _)
      rw [if_pos hi]
      exact Nat.le_max_right a _
    · exact ih hmem hi _

theorem sum_map_add_two (ws : List Nat) :
    (ws.map (fun w => w + 2)).sum = ws.sum + 2 * ws.length := by
  induction ws with
  | nil => rfl
  | cons w rest ih =>
    simp only [List.map_cons, List.sum_cons, List.length_cons, ih]
    omega

theorem zip_cells_map_length :
    ∀ (row : List String) (ws : List Nat), row.length = ws.length →
      (∀ (i : Nat) (h1 : i < row.length) (h2 : i < ws.length),
        (row.get ⟨i, h1⟩).length ≤ ws.get ⟨i, h2⟩) →
      (List.zipWith (fun c w => " " ++ pyLjust c w ++ " ") row ws).map String.length
        = ws.map (fun w => w + 2) := by
  intro row
  induction row with
  | nil =>
    intro ws hlen _
    have : ws = [] := List.length_eq_zero.mp hlen.symm
    subst this
    rfl
  | cons c cs ih =>
    intro ws hlen hb
    cases ws with
    | nil => simp at hlen
    | cons w rest =>
      have hc : c.length ≤ w := hb 0 (by simp) (by simp)
      have hhead : (" " ++ pyLjust c w ++ " ").length = w + 2 := by
        have hsp : (" " : String).length = 1 := rfl
        rw [String.length_append, String.length_append, length_pyLjust c w hc, hsp]
        omega
      simp only [List.zipWith_cons_cons, List.map_cons, hhead]
      rw [ih rest (by simpa using hlen)
        (fun i h1 h2 => hb (i + 1) (by simpa using Nat.succ_lt_succ h1)
          (by simpa using Nat.succ_lt_succ h2))]

theorem build_data_row_length (ws : List Nat) (row : List String) (l r iv : Bool)
    (hw : row.length = ws.length)
    (hb : ∀ (i : Nat) (h1 : i < row.length) (h2 : i < ws.length),
      (row.get ⟨i, h1⟩).length ≤ ws.get ⟨i, h2⟩) :
    (build_data_row ws row l r iv).length = innerLen ws ws.length + 2 := by
  have hcells := zip_cells_map_length row ws hw hb
  have hlen_cells :
      (List.zipWith (fun c w => " " ++ pyLjust c w ++ " ") row ws).length = ws.length := by
    rw [List.length_zipWith]
    omega
  have hinner : ∀ sep : String, sep.length = 1 →
      (pyJoin sep (List.zipWith (fun c w => " " ++ pyLjust c w ++ " ") row ws)).length
        = innerLen ws ws.length := by
    intro sep hsep
    rw [length_pyJoin, hcells, hlen_cells, hsep, sum_map_add_two]
    unfold innerLen
    by_cases h0 : ws.length = 0
    · have hnil : ws = [] := List.length_eq_zero.mp h0
      subst hnil
      simp
    · rw [if_neg h0]
      omega
  have hl : (if l = true then "|" else " ").length = 1 := by cases l <;> rfl
  have hr' : (if r = true then "|" else " ").length = 1 := by cases r <;> rfl
  unfold build_data_row
  cases iv with
  | false =>
    simp only [Bool.false_eq_true, if_false]
    rw [String.length_append, String.length_append, hinner " " rfl, hl, hr']
    omega
  | true =>
    simp only [if_true]
    rw [String.length_append, String.length_append, hinner "|" rfl, hl, hr']
    omega

theorem build_h_line_length (ws : List Nat) (n : Nat) (l r iv : Bool)
    (hw : ws.length = n) :
    (build_h_line ws n l r iv).length = innerLen ws n + 2 := by
  subst hw
  have hl : (if l = true then "+" else "-").length = 1 := by cases l <;> rfl
  have hr' : (if r = true then "+" else "-").length = 1 := by cases r <;> rfl
  unfold build_h_line
  cases iv with
  | true =>
    simp only [if_true]
    have hmap : ((ws.map (fun w => pyRepeat '-' (w + 2))).map String.length)
        = ws.map (fun w => w + 2) := by
      rw [List.map_map]
      exact List.map_congr_left (fun w _ => length_pyRepeat '-' (w + 2))
    have hplus : ("+" : String).length = 1 := rfl
    rw [String.length_append, String.length_append, hl, hr', length_pyJoin, hmap,
      sum_map_add_two, List.length_map, hplus]
    unfold innerLen
    by_cases h0 : ws.length = 0
    · have hnil : ws = [] := List.length_eq_zero.mp h0
      subst hnil
      simp
    · rw [if_neg h0]
      omega
  | false =>
    simp only [Bool.false_eq_true, if_false]
    rw [String.length_append, String.length_append, hl, hr', length_pyRepeatInt]
    unfold innerLen
    by_cases h0 : ws.length = 0
    · have : ws = [] := List.length_eq_zero.mp h0
      subst this
      simp
    · rw [if_neg h0]
      omega

theorem dataLines_length_mem (ws : List Nat) (info : BorderInfo) (hline : String)
    (L : Nat) (hh : hline.length = L) :
    ∀ (rows : List (List String)),
      (∀ r ∈ rows,
        (build_data_row ws r info.left info.right info.inside_v).length = L) →
      ∀ line ∈ dataLines ws info hline rows, line.length = L := by
  intro rows
  induction rows with
  | nil =>
    intro _ line hmem
    cases hmem
  | cons r rest ih =>
    cases rest with
    | nil =>
      intro hr line hmem
      unfold dataLines at hmem
      rcases List.mem_singleton.mp hmem with rfl
      exact hr r (by simp)
    | cons r2 rest2 =>
      intro hr line hmem
      unfold dataLines at hmem
      rcases List.mem_cons.mp hmem with rfl | hmem2
      · exact hr r (by simp)
      · by_cases hih : info.inside_h = true
        · rw [if_pos hih] at hmem2
          rcases List.mem_cons.mp hmem2 with rfl | hmem3
          · exact hh
          · exact ih (fun x hx => hr x (by simp [hx])) line hmem3
        · rw [if_neg hih] at hmem2
          exact ih (fun x hx => hr x (by simp [hx])) line hmem2

theorem asciiLines_length (trs : List TableRow) (info : BorderInfo) :
    ∀ line ∈ asciiLines trs info, line.length = asciiLineLenOf trs := by
  intro line hmem
  have hhl : (build_h_line (widthsOf trs) (maxColsOf trs)
      info.left info.right info.inside_v).length = asciiLineLenOf trs := by
    rw [build_h_line_length _ _ _ _ _ (length_widthsOf trs)]
    rfl
  have hdr : ∀ r ∈ paddedOf trs,
      (build_data_row (widthsOf trs) r info.left info.right info.inside_v).length
        = asciiLineLenOf trs := by
    intro r hr
    have hw : r.length = (widthsOf trs).length := by
      rw [length_widthsOf]
      exact mem_padded_length trs r hr
    have hb : ∀ (i : Nat) (h1 : i < r.length) (h2 : i < (widthsOf trs).length),
        (r.get ⟨i, h1⟩).length ≤ (widthsOf trs).get ⟨i, h2⟩ := by
      intro i h1 h2
      have hi : i < maxColsOf trs := by
        rw [← length_widthsOf trs]
        exact h2
      have hget : (widthsOf trs).get ⟨i, h2⟩ = colWidth (paddedOf trs) i := by
        have hgd := widthsOf_getD trs i hi
        rw [List.getD, List.get?_eq_getElem?, List.getElem?_eq_getElem h2] at hgd
        simpa [List.get_eq_getElem] using hgd
      have hgdr : r.getD i "" = r.get ⟨i, h1⟩ := by
        rw [List.getD, List.get?_eq_getElem?, List.getElem?_eq_getElem h1]
        simp [List.get_eq_getElem]
      rw [hget, ← hgdr]
      exact mem_le_colWidth i r (paddedOf trs) hr
        (by rw [mem_padded_length trs r hr]; exact hi) 1
    rw [build_data_row_length _ _ _ _ _ hw hb]
    unfold asciiLineLenOf
    rw [← length_widthsOf trs]
  unfold asciiLines at hmem
  rcases List.mem_append.mp hmem with hmem1 | hmem4
  · rcases List.mem_append.mp hmem1 with hmem2 | hmem3
    · by_cases ht : info.top = true
      · rw [if_pos ht] at hmem2
        rcases List.mem_singleton.mp hmem2 with rfl
        exact hhl
      · rw [if_neg ht] at hmem2
        cases hmem2
    · exact dataLines_length_mem _ _ _ _ hhl _ hdr line hmem3
  · by_cases hbot : info.bottom = true
    · rw [if_pos hbot] at hmem4
      rcases List.mem_singleton.mp hmem4 with rfl
      exact hhl
    · rw [if_neg hbot] at hmem4
      cases hmem4

theorem has_any_false_iff (i : BorderInfo) : i.has_any = false ↔ i = {} := by
  cases i
  simp [BorderInfo.has_any, BorderInfo.mk.injEq]
  tauto

theorem orInfo_empty_right (a : BorderInfo) : orInfo a {} = a := by
  cases a
  simp [orInfo]

theorem cellContrib_of_invisible (nrows ncells ri ci : Nat) (c : TableCell)
    (h : cellNoVisibleBorders c = true) : cellContrib nrows ncells ri ci c = {} := by
  obtain ⟨pr, content⟩ := c
  cases pr with
  | none => rfl
  | some p =>
    obtain ⟨tcb⟩ := p
    cases tcb with
    | none => rfl
    | some cb =>
      unfold cellNoVisibleBorders at h
      simp only [TableCell.tc_pr, Bool.and_eq_true, Bool.not_eq_true] at h
      obtain ⟨⟨⟨h1, h2⟩, h3⟩, h4⟩ := h
      unfold cellContrib
      simp only [TableCell.tc_pr]
      simp_all

theorem foldCells_of_invisible (nrows ncells ri : Nat) (acc : BorderInfo) (ci : Nat)
    (cs : List TableCell) (h : ∀ c ∈ cs, cellNoVisibleBorders c = true) :
    foldCells nrows ncells ri acc ci cs = acc := by
  induction cs generalizing acc ci with
  | nil => rfl
  | cons c cs ih =>
    rw [foldCells, cellContrib_of_invisible _ _ _ _ _ (h c (by simp)),
      orInfo_empty_right]
    exact ih acc (ci + 1) (fun c hc => h c (by simp [hc]))

theorem foldRows_of_invisible (nrows : Nat) (acc : BorderInfo) (ri : Nat)
    (rs : List TableRow) (h : ∀ r ∈ rs, ∀ c ∈ r.tc, cellNoVisibleBorders c = true) :
    foldRows nrows acc ri rs = acc := by
  induction rs generalizing acc ri with
  | nil => rfl
  | cons r rs ih =>
    rw [foldRows, foldCells_of_invisible _ _ _ _ _ _ (h r (by simp))]
    exact ih acc (ri + 1) (fun r hr => h r (by simp [hr]))

/-! ### Claim C1: border visibility and table-level precedence -/

/-- C1: a border edge is visible iff it is declared with a style value that
is neither `"none"` nor `"nil"`; if any table-level edge is visible,
`detect_borders` returns exactly the table-level flags (a function of
`tbl_pr` alone, so cell borders are never consulted); the cell-level
aggregation is used only when no table-level edge is visible. -/
theorem c1_border_visibility_and_precedence :
    (∀ b : Option Border, is_border_visible b = true
      ↔ ∃ bb v, b = some bb ∧ bb.val = some v ∧ v ≠ "none" ∧ v ≠ "nil")
    ∧ (∀ t : Table, (tableLevelInfo t.tbl_pr).has_any = true →
        detect_borders t = tableLevelInfo t.tbl_pr)
    ∧ (∀ t : Table, (tableLevelInfo t.tbl_pr).has_any = false → t.tr ≠ [] →
        detect_borders t = foldRows t.tr.length {} 0 t.tr) := by
  refine ⟨?_, ?_, ?_⟩
  · intro b
    constructor
    · intro h
      cases b with
      | none => simp [is_border_visible] at h
      | some bb =>
        cases hv : bb.val with
        | none => simp [is_border_visible, hv] at h
        | some v =>
          refine ⟨bb, v, rfl, hv, ?_, ?_⟩ <;>
          · intro heq
            subst heq
            simp [is_border_visible, hv] at h
    · rintro ⟨bb, v, rfl, hv, h1, h2⟩
      simp [is_border_visible, hv, h1, h2]
  · intro t h
    unfold detect_borders
    simp [h]
  · intro t h hne
    unfold detect_borders
    simp only [h, Bool.false_or]
    rw [if_neg (by simpa [List.isEmpty_iff] using hne)]
    rw [(has_any_false_iff _).mp h]

/-- A table with a visible table-level top edge and a cell declaring all
four edges visible: the detected borders are exactly the table-level ones. -/
def c1Table : Table :=
  Table.mk (some ⟨some ⟨some ⟨some "single"⟩, Option.none, Option.none,
    Option.none, Option.none, Option.none⟩⟩)
    [TableRow.mk [TableCell.mk
      (some ⟨some ⟨some ⟨some "single"⟩, some ⟨some "single"⟩,
        some ⟨some "single"⟩, some ⟨some "single"⟩⟩⟩) []]]

theorem c1_witness :
    (tableLevelInfo c1Table.tbl_pr).has_any = true
    ∧ detect_borders c1Table = tableLevelInfo c1Table.tbl_pr :=
  ⟨by decide, c1_border_visibility_and_precedence.2.1 c1Table (by decide)⟩

/-! ### Claim C4: explicit ascii mode forces the full box -/

/-- C4: for a non-empty table, explicit `ascii` mode renders the ASCII box
with all six border flags forced true, and the result does not depend on
anything but the row list (in particular not on what `detect_borders` would
return for the table's border declarations). -/
theorem c4_explicit_ascii_forces_full_box (t : Table) (h : t.tr ≠ []) :
    table_to_text (some t) TableMode.ascii = table_to_ascii t (some fullBorders)
    ∧ ∀ t' : Table, t'.tr = t.tr →
        table_to_text (some t') TableMode.ascii = table_to_text (some t) TableMode.ascii := by
  have hne : t.tr.isEmpty = false := by simpa [List.isEmpty_iff] using h
  constructor
  · simp [table_to_text, hne]
  · intro t' h'
    have hne' : t'.tr.isEmpty = false := by rw [h']; exact hne
    simp only [table_to_text, hne, hne', Bool.false_eq_true, if_false]
    unfold table_to_ascii
    rw [h']

/-- A 1×2 table with a visible table-level top border only. -/
def c4Table : Table :=
  Table.mk (some ⟨some ⟨some ⟨some "single"⟩, Option.none, Option.none,
    Option.none, Option.none, Option.none⟩⟩)
    [TableRow.mk [TableCell.mk Option.none [CellContent.para ⟨"A1"⟩],
      TableCell.mk Option.none [CellContent.para ⟨"A2"⟩]]]

/-- The same rows with no border declarations at all. -/
def c4TableNoBorders : Table := Table.mk Option.none c4Table.tr

theorem c4_witness :
    table_to_text (some c4Table) TableMode.ascii = table_to_ascii c4Table (some fullBorders)
    ∧ table_to_text (some c4TableNoBorders) TableMode.ascii
        = table_to_text (some c4Table) TableMode.ascii := by
  have h := c4_explicit_ascii_forces_full_box c4Table (List.cons_ne_nil _ _)
  exact ⟨h.1, h.2 c4TableNoBorders rfl⟩

/-! ### Claim C5: cell-level aggregation on 2-by-2 tables -/

/-- The border declaration a cell carries on one edge (`None` when the cell
has no properties or no `tcBorders`). -/
def cellBorder (c : TableCell) (sel : TcBorders → Option Border) : Option Border :=
  match c.tc_pr with
  | Option.none => Option.none
  | Option.some pr =>
    match pr.tc_borders with
    | Option.none => Option.none
    | Option.some cb => sel cb

theorem cellContrib_eq (nrows ncells ri ci : Nat) (c : TableCell) :
    cellContrib nrows ncells ri ci c =
      { top := decide (ri = 0) && is_border_visible (cellBorder c TcBorders.top)
        bottom := decide (ri = nrows - 1)
          && is_border_visible (cellBorder c TcBorders.bottom)
        left := decide (ci = 0) && is_border_visible (cellBorder c TcBorders.left)
        right := decide (ci = ncells - 1)
          && is_border_visible (cellBorder c TcBorders.right)
        inside_h := (decide (ri < nrows - 1)
            && is_border_visible (cellBorder c TcBorders.bottom))
          || (decide (0 < ri) && is_border_visible (cellBorder c TcBorders.top))
        inside_v := (decide (ci < ncells - 1)
            && is_border_visible (cellBorder c TcBorders.right))
          || (decide (0 < ci) && is_border_visible (cellBorder c TcBorders.left)) } := by
  obtain ⟨pr, content⟩ := c
  cases pr with
  | none => simp [cellContrib, cellBorder, TableCell.tc_pr, is_border_visible]
  | some p =>
    obtain ⟨tcb⟩ := p
    cases tcb with
    | none => simp [cellContrib, cellBorder, TableCell.tc_pr, is_border_visible]
    | some cb => rfl

theorem foldCells_pair (n m ri ci : Nat) (acc : BorderInfo) (a b : TableCell) :
    foldCells n m ri acc ci [a, b]
      = orInfo (orInfo acc (cellContrib n m ri ci a))
          (cellContrib n m ri (ci + 1) b) := rfl

theorem foldRows_pair (n : Nat) (acc : BorderInfo) (ri : Nat) (ra rb : TableRow) :
    foldRows n acc ri [ra, rb]
      = foldCells n rb.tc.length (ri + 1)
          (foldCells n ra.tc.length ri acc 0 ra.tc) 0 rb.tc := rfl

/-- C5: for every 2-row, 2-column table with no visible table-level border
in which the top-left cell declares a visible bottom border and no other
cell edge is visible, `detect_borders` sets `inside_h` and nothing else. -/
theorem c5_two_by_two_inside_h (t : Table) (r0 r1 : TableRow)
    (c00 c01 c10 c11 : TableCell)
    (htr : t.tr = [r0, r1]) (h0 : r0.tc = [c00, c01]) (h1 : r1.tc = [c10, c11])
    (htbl : (tableLevelInfo t.tbl_pr).has_any = false)
    (hvis : is_border_visible (cellBorder c00 TcBorders.bottom) = true)
    (htop : is_border_visible (cellBorder c00 TcBorders.top) = false)
    (hleft : is_border_visible (cellBorder c00 TcBorders.left) = false)
    (hright : is_border_visible (cellBorder c00 TcBorders.right) = false)
    (h01 : cellNoVisibleBorders c01 = true)
    (h10 : cellNoVisibleBorders c10 = true)
    (h11 : cellNoVisibleBorders c11 = true) :
    detect_borders t
      = { top := false, bottom := false, left := false, right := false,
          inside_h := true, inside_v := false } := by
  have e00 : cellContrib 2 2 0 0 c00
      = { top := false, bottom := false, left := false, right := false,
          inside_h := true, inside_v := false } := by
    rw [cellContrib_eq, hvis, htop, hleft, hright]
    decide
  have e01 : cellContrib 2 2 0 1 c01 = {} := cellContrib_of_invisible 2 2 0 1 c01 h01
  have e10 : cellContrib 2 2 1 0 c10 = {} := cellContrib_of_invisible 2 2 1 0 c10 h10
  have e11 : cellContrib 2 2 1 1 c11 = {} := cellContrib_of_invisible 2 2 1 1 c11 h11
  have hstep : detect_borders t = foldRows 2 {} 0 [r0, r1] := by
    simp only [detect_borders, htr, htbl, Bool.false_or]
    rw [show ([r0, r1] : List TableRow).isEmpty = false from rfl]
    rw [show ([r0, r1] : List TableRow).length = 2 from rfl]
    simp only [Bool.false_eq_true, if_false]
    rw [(has_any_false_iff _).mp htbl]
  rw [hstep, foldRows_pair, h0, h1]
  rw [show ([c00, c01] : List TableCell).length = 2 from rfl]
  rw [show ([c10, c11] : List TableCell).length = 2 from rfl]
  rw [foldCells_pair, foldCells_pair]
  simp only [Nat.zero_add]
  rw [e00, e01, e10, e11]
  decide

/-- The top-left cell of the concrete 2×2 instance: a visible (`"single"`)
bottom border and nothing else. -/
def c5CellTL : TableCell :=
  TableCell.mk (some ⟨some ⟨Option.none, some ⟨some "single"⟩,
    Option.none, Option.none⟩⟩) []

/-- A cell of the concrete 2×2 instance with no properties at all. -/
def c5CellPlain : TableCell := TableCell.mk Option.none []

/-- The concrete 2×2 table with no table-level borders in which only the
top-left cell declares a (visible) bottom border. -/
def c5Table : Table :=
  Table.mk Option.none
    [TableRow.mk [c5CellTL, c5CellPlain], TableRow.mk [c5CellPlain, c5CellPlain]]

theorem c5_witness :
    detect_borders c5Table
      = { top := false, bottom := false, left := false, right := false,
          inside_h := true, inside_v := false } :=
  c5_two_by_two_inside_h c5Table
    (TableRow.mk [c5CellTL, c5CellPlain]) (TableRow.mk [c5CellPlain, c5CellPlain])
    c5CellTL c5CellPlain c5CellPlain c5CellPlain
    rfl rfl rfl (by decide) (by decide) (by decide) (by decide) (by decide)
    (by decide) (by decide) (by decide)

/-! ### Claim C8: null and empty inputs -/

/-- C8: `cell_to_text None = ""`, `table_to_text None = ""` in every mode,
and a table with an empty row list yields `""` in every mode. -/
theorem c8_null_and_empty_yield_empty :
    cell_to_text Option.none = ""
    ∧ (∀ m : TableMode, table_to_text Option.none m = "")
    ∧ (∀ (t : Table) (m : TableMode), t.tr = [] → table_to_text (some t) m = "") := by
  refine ⟨rfl, fun m => rfl, fun t m h => ?_⟩
  simp [table_to_text, h]

theorem c8_witness :
    table_to_text (some (Table.mk Option.none [])) TableMode.auto = "" :=
  c8_null_and_empty_yield_empty.2.2 (Table.mk Option.none []) TableMode.auto rfl

/-! ### Claim C2: cell_to_text joins paragraph texts

The code keeps only the truthy (non-empty) rendered texts (`if text:`), so
a paragraph rendering to `""` contributes no entry, while the claim asks
for one entry per paragraph. -/

/-- A cell with two paragraphs, the first rendering to the empty string. -/
def c2Cell : TableCell :=
  TableCell.mk Option.none [CellContent.para ⟨""⟩, CellContent.para ⟨"b"⟩]

/-- C2, counterexample: on a cell whose first paragraph renders to `""`,
`cell_to_text` is `"b"` while joining one entry per paragraph with `"\n"`
would give `"\nb"`. -/
theorem c2_counterexample :
    cell_to_text (some c2Cell) ≠ pyJoin "\n" (cellParagraphTexts c2Cell)
    ∧ cell_to_text (some c2Cell) = "b"
    ∧ pyJoin "\n" (cellParagraphTexts c2Cell) = "\nb" := by
  refine ⟨?_, rfl, rfl⟩
  decide

/-- C2, amended: `cell_to_text` equals the rendered texts of the cell's
paragraphs, in document order, restricted to the non-empty ones, joined
with `"\n"`. -/
theorem c2_join_nonempty_paragraph_texts (c : TableCell) :
    cell_to_text (some c)
      = pyJoin "\n" ((cellParagraphTexts c).filter (fun s => !(s == ""))) := by
  obtain ⟨pr, content⟩ := c
  unfold cell_to_text cellParagraphTexts
  simp only [TableCell.content]
  congr 1
  induction content with
  | nil => rfl
  | cons cc rest ih =>
    cases cc with
    | para p =>
      by_cases h : paragraph_to_text p = ""
      · simp [List.filterMap_cons, List.filter_cons, h, ih]
      · simp [List.filterMap_cons, List.filter_cons, h, ih]
    | tbl t => simp [List.filterMap_cons, ih]

/-! ### Claim C3: borderless tables render identically in auto and tabs -/

/-- C3: when no visible border is declared at the table level or at any
cell level, `auto` mode renders exactly as `tabs` mode. -/
theorem c3_borderless_auto_eq_tabs (t : Table) (h : noDeclaredBorders t = true) :
    table_to_text (some t) TableMode.auto = table_to_text (some t) TableMode.tabs := by
  unfold noDeclaredBorders at h
  simp only [Bool.and_eq_true, Bool.not_eq_true', List.all_eq_true] at h
  obtain ⟨htl, hcells⟩ := h
  have hdet : detect_borders t = {} := by
    unfold detect_borders
    simp only [htl, Bool.false_or]
    by_cases he : t.tr.isEmpty
    · simp [he, (has_any_false_iff _).mp htl]
    · simp only [he, Bool.false_eq_true, if_false]
      rw [foldRows_of_invisible _ _ _ _
        (fun r hr c hc => hcells r hr c hc), (has_any_false_iff _).mp htl]
  have hvis : has_visible_borders t = false := by
    unfold has_visible_borders
    rw [hdet]
    rfl
  unfold table_to_text
  by_cases he : t.tr.isEmpty
  · simp [he]
  · simp [he, hvis]

/-- A 1×1 borderless table with one paragraph. -/
def c3Table : Table :=
  Table.mk Option.none [TableRow.mk [TableCell.mk Option.none [CellContent.para ⟨"x"⟩]]]

theorem c3_witness :
    table_to_text (some c3Table) TableMode.auto
      = table_to_text (some c3Table) TableMode.tabs :=
  c3_borderless_auto_eq_tabs c3Table (by decide)

/-! ### Claim C6: ASCII column widths -/

/-- C6: every computed column width equals the maximum over all rows of the
length of that column's cell text (newlines flattened to spaces), floored
at the minimum 1. -/
theorem c6_column_width_is_max_text_length (t : Table) (i : Nat)
    (hi : i < maxColsOf t.tr) :
    (widthsOf t.tr).getD i 0 = specColWidth t.tr i
    ∧ 1 ≤ (widthsOf t.tr).getD i 0 := by
  have heq : (widthsOf t.tr).getD i 0 = specColWidth t.tr i := by
    rw [widthsOf_getD t.tr i hi, colWidth_padded_eq t.tr i hi, specColWidth]
  exact ⟨heq, by rw [heq]; exact Nat.le_max_left 1 _⟩

/-- A 1×1 table whose single cell renders to `"ab\ncd"` (so the flattened
text is `"ab cd"`, length 5). -/
def c6Table : Table :=
  Table.mk Option.none
    [TableRow.mk [TableCell.mk Option.none [CellContent.para ⟨"ab\ncd"⟩]]]

theorem c6_witness :
    0 < maxColsOf c6Table.tr
    ∧ ((widthsOf c6Table.tr).getD 0 0 = specColWidth c6Table.tr 0
        ∧ 1 ≤ (widthsOf c6Table.tr).getD 0 0) :=
  ⟨by decide, c6_column_width_is_max_text_length c6Table 0 (by decide)⟩

/-! ### Claim C7: the horizontal rule

For a table with at least one column the rule's interior is as claimed;
with zero columns the Python interior is the empty string (`"-" * -1`),
not a run of length `sum + 3*(ncols-1) + 2`. -/

/-- C7, amended: for a table with at least one column, the horizontal rule
built by `table_to_ascii` has, between its two edge characters, per-column
runs of `-` of length `w+2` joined with `+` when `inside_v` is set, and one
unbroken run of `-` of length `sum(col_widths) + 3*(ncols-1) + 2` when it
is not. -/
theorem c7_horizontal_rule_interior (t : Table) (l r : Bool)
    (h : 1 ≤ maxColsOf t.tr) :
    build_h_line (widthsOf t.tr) (maxColsOf t.tr) l r true
      = (if l then "+" else "-")
        ++ pyJoin "+" ((widthsOf t.tr).map (fun w => pyRepeat '-' (w + 2)))
        ++ (if r then "+" else "-")
    ∧ build_h_line (widthsOf t.tr) (maxColsOf t.tr) l r false
      = (if l then "+" else "-")
        ++ pyRepeat '-' ((widthsOf t.tr).sum + 3 * (maxColsOf t.tr - 1) + 2)
        ++ (if r then "+" else "-") := by
  constructor
  · rfl
  · have hval : ((widthsOf t.tr).sum : Int) + 3 * ((maxColsOf t.tr : Int) - 1) + 2
        = (((widthsOf t.tr).sum + 3 * (maxColsOf t.tr - 1) + 2 : Nat) : Int) := by
      push_cast
      omega
    have hpos : ¬ ((((widthsOf t.tr).sum + 3 * (maxColsOf t.tr - 1) + 2 : Nat) : Int) ≤ 0) := by
      omega
    simp only [build_h_line, Bool.false_eq_true, if_false]
    rw [hval, pyRepeatInt, if_neg hpos, Int.toNat_natCast]

/-- A table with one row and zero cells, with a visible table-level top
border (so `auto` mode emits a horizontal rule for it). -/
def c7Table : Table :=
  Table.mk (some ⟨some ⟨some ⟨some "single"⟩, Option.none, Option.none,
    Option.none, Option.none, Option.none⟩⟩) [TableRow.mk []]

/-- C7, counterexample: on the zero-column one-row table the rule is
emitted (`table_to_ascii` yields `"--\n  "`); the claimed interior size is
`-1` in Python's integer arithmetic, and the rule is not the edge
characters around a run of the Nat-truncated claimed length either. -/
theorem c7_counterexample :
    maxColsOf c7Table.tr = 0
    ∧ detect_borders c7Table
        = { top := true, bottom := false, left := false, right := false,
            inside_h := false, inside_v := false }
    ∧ table_to_ascii c7Table Option.none = "--\n  "
    ∧ ((widthsOf c7Table.tr).sum : Int) + 3 * ((maxColsOf c7Table.tr : Int) - 1) + 2 = -1
    ∧ build_h_line (widthsOf c7Table.tr) (maxColsOf c7Table.tr) false false false
        ≠ "-" ++ pyRepeat '-'
            ((widthsOf c7Table.tr).sum + 3 * (maxColsOf c7Table.tr - 1) + 2) ++ "-" := by
  exact ⟨by decide, by decide, by decide, by decide, by decide⟩

/-- A 1×1 table with one column, for the witness. -/
def c7WTable : Table :=
  Table.mk Option.none [TableRow.mk [TableCell.mk Option.none [CellContent.para ⟨"x"⟩]]]

theorem isEmpty_map {α β : Type} (f : α → β) (l : List α) :
    (l.map f).isEmpty = l.isEmpty := by
  cases l <;> rfl

/-! ### Claim C10: uniform ASCII line lengths -/

/-- C10: rows are padded with empty cells up to the maximum column count
before rendering, every line of the ASCII rendering has the same length,
and for a non-empty table the output of `table_to_ascii` is exactly those
lines joined with `"\n"`. -/
theorem c10_uniform_line_lengths (t : Table) (info : BorderInfo) :
    (∀ r ∈ paddedOf t.tr, r.length = maxColsOf t.tr)
    ∧ (∀ l1 ∈ asciiLines t.tr info, ∀ l2 ∈ asciiLines t.tr info,
        l1.length = l2.length)
    ∧ (t.tr ≠ [] →
        table_to_ascii t (some info) = pyJoin "\n" (asciiLines t.tr info)) := by
  refine ⟨fun r hr => mem_padded_length t.tr r hr, fun l1 h1 l2 h2 => ?_, fun hne => ?_⟩
  · rw [asciiLines_length t.tr info l1 h1, asciiLines_length t.tr info l2 h2]
  · have he : t.tr.isEmpty = false := by simpa [List.isEmpty_iff] using hne
    have he2 : (rowsData t.tr).isEmpty = false := by
      unfold rowsData
      rw [isEmpty_map]
      exact he
    simp [table_to_ascii, he, he2]

/-- A 1×2 table for the C10 witness. -/
def c10Table : Table :=
  Table.mk Option.none
    [TableRow.mk [TableCell.mk Option.none [CellContent.para ⟨"A1"⟩],
      TableCell.mk Option.none [CellContent.para ⟨"A2"⟩]]]

theorem c10_witness :
    "+----+----+" ∈ asciiLines c10Table.tr fullBorders
    ∧ "| A1 | A2 |" ∈ asciiLines c10Table.tr fullBorders
    ∧ ("+----+----+" : String).length = ("| A1 | A2 |" : String).length :=
  ⟨by decide, by decide,
    (c10_uniform_line_lengths c10Table fullBorders).2.1 _ (by decide) _ (by decide)⟩

theorem c7_witness :
    1 ≤ maxColsOf c7WTable.tr
    ∧ (build_h_line (widthsOf c7WTable.tr) (maxColsOf c7WTable.tr) true true true
        = (if true then "+" else "-")
          ++ pyJoin "+" ((widthsOf c7WTable.tr).map (fun w => pyRepeat '-' (w + 2)))
          ++ (if true then "+" else "-")
      ∧ build_h_line (widthsOf c7WTable.tr) (maxColsOf c7WTable.tr) true true false
        = (if true then "+" else "-")
          ++ pyRepeat '-'
              ((widthsOf c7WTable.tr).sum + 3 * (maxColsOf c7WTable.tr - 1) + 2)
          ++ (if true then "+" else "-")) :=
  ⟨by decide, c7_horizontal_rule_interior c7WTable true true (by decide)⟩

/-! ### Claim C9: non-paragraph cell content is ignored -/

/-- Whether a content item is a paragraph. -/
def isPara : CellContent → Bool
  | .para _ => true
  | .tbl _ => false

/-- Remove every non-paragraph content item from a cell. -/
def stripNonPara (c : TableCell) : TableCell :=
  TableCell.mk c.tc_pr (c.content.filter isPara)

/-- Remove every non-paragraph content item from a row's cells. -/
def stripRow (r : TableRow) : TableRow :=
  TableRow.mk (r.tc.map stripNonPara)

/-- Remove every non-paragraph content item from a table's cells. -/
def stripTable (t : Table) : Table :=
  Table.mk t.tbl_pr (t.tr.map stripRow)

theorem cell_to_text_strip (c : TableCell) :
    cell_to_text (some (stripNonPara c)) = cell_to_text (some c) := by
  obtain ⟨pr, content⟩ := c
  unfold stripNonPara cell_to_text
  simp only [TableCell.content, TableCell.tc_pr]
  congr 1
  induction content with
  | nil => rfl
  | cons cc rest ih =>
    cases cc with
    | para p => simp [List.filter_cons, isPara, List.filterMap_cons, ih]
    | tbl t' => simp [List.filter_cons, isPara, List.filterMap_cons, ih]

theorem row_to_text_strip (r : TableRow) (sep : String) :
    row_to_text (some (stripRow r)) sep = row_to_text (some r) sep := by
  unfold row_to_text stripRow
  simp only [TableRow.tc]
  rw [List.map_map]
  exact congrArg (pyJoin sep)
    (List.map_congr_left fun c _ => cell_to_text_strip c)

theorem rowsData_strip (trs : List TableRow) :
    rowsData (trs.map stripRow) = rowsData trs := by
  unfold rowsData
  rw [List.map_map]
  apply List.map_congr_left
  intro r _
  show (stripRow r).tc.map (fun c => pyReplaceNl (cell_to_text (some c)))
    = r.tc.map (fun c => pyReplaceNl (cell_to_text (some c)))
  rw [show (stripRow r).tc = r.tc.map stripNonPara from rfl, List.map_map]
  exact List.map_congr_left fun c _ => congrArg pyReplaceNl (cell_to_text_strip c)

theorem cellContrib_strip (nrows ncells ri ci : Nat) (c : TableCell) :
    cellContrib nrows ncells ri ci (stripNonPara c) = cellContrib nrows ncells ri ci c := by
  obtain ⟨pr, content⟩ := c
  rfl

theorem foldCells_strip (nrows ncells ri : Nat) :
    ∀ (cs : List TableCell) (acc : BorderInfo) (ci : Nat),
      foldCells nrows ncells ri acc ci (cs.map stripNonPara)
        = foldCells nrows ncells ri acc ci cs := by
  intro cs
  induction cs with
  | nil => intro acc ci; rfl
  | cons c rest ih =>
    intro acc ci
    simp only [List.map_cons, foldCells, cellContrib_strip]
    exact ih _ _

theorem foldRows_strip (nrows : Nat) :
    ∀ (rs : List TableRow) (acc : BorderInfo) (ri : Nat),
      foldRows nrows acc ri (rs.map stripRow) = foldRows nrows acc ri rs := by
  intro rs
  induction rs with
  | nil => intro acc ri; rfl
  | cons r rest ih =>
    intro acc ri
    simp only [List.map_cons, foldRows]
    rw [show (stripRow r).tc = r.tc.map stripNonPara from rfl, List.length_map,
      foldCells_strip]
    exact ih _ _

theorem detect_borders_strip (t : Table) :
    detect_borders (stripTable t) = detect_borders t := by
  simp only [detect_borders, show (stripTable t).tbl_pr = t.tbl_pr from rfl,
    show (stripTable t).tr = t.tr.map stripRow from rfl,
    isEmpty_map, List.length_map, foldRows_strip]

theorem asciiLines_congr (trs1 trs2 : List TableRow)
    (h : rowsData trs1 = rowsData trs2) (info : BorderInfo) :
    asciiLines trs1 info = asciiLines trs2 info := by
  unfold asciiLines widthsOf paddedOf maxColsOf
  rw [h]

theorem table_to_ascii_strip (t : Table) (bi : Option BorderInfo) :
    table_to_ascii (stripTable t) bi = table_to_ascii t bi := by
  unfold table_to_ascii
  rw [detect_borders_strip,
    show (stripTable t).tr = t.tr.map stripRow from rfl,
    isEmpty_map, rowsData_strip,
    asciiLines_congr (t.tr.map stripRow) t.tr (rowsData_strip t.tr)]

theorem table_to_tabs_strip (t : Table) :
    table_to_tabs (stripTable t) = table_to_tabs t := by
  unfold table_to_tabs
  rw [show (stripTable t).tr = t.tr.map stripRow from rfl, isEmpty_map, List.map_map]
  exact congrArg _ (congrArg (pyJoin "\n")
    (List.map_congr_left fun r _ => row_to_text_strip r "\t"))

theorem table_to_plain_strip (t : Table) :
    table_to_plain (stripTable t) = table_to_plain t := by
  unfold table_to_plain
  rw [show (stripTable t).tr = t.tr.map stripRow from rfl, isEmpty_map, List.map_map]
  exact congrArg _ (congrArg (pyJoin "\n")
    (List.map_congr_left fun r _ => row_to_text_strip r "  "))

/-- C9: `cell_to_text` ignores every content item that is not a paragraph
(removing the non-paragraph items — in particular nested tables — changes
neither the cell's text nor `table_to_text` in any mode). -/
theorem c9_non_paragraph_content_ignored :
    (∀ c : TableCell, cell_to_text (some (stripNonPara c)) = cell_to_text (some c))
    ∧ ∀ (t : Table) (m : TableMode),
        table_to_text (some (stripTable t)) m = table_to_text (some t) m := by
  refine ⟨cell_to_text_strip, fun t m => ?_⟩
  have hemp : (stripTable t).tr.isEmpty = t.tr.isEmpty := by
    rw [show (stripTable t).tr = t.tr.map stripRow from rfl, isEmpty_map]
  have hvis : has_visible_borders (stripTable t) = has_visible_borders t := by
    unfold has_visible_borders
    rw [detect_borders_strip]
  by_cases he : t.tr.isEmpty
  · simp [table_to_text, hemp, he]
  · cases m with
    | ascii =>
      simp [table_to_text, hemp, he, table_to_ascii_strip]
    | tabs =>
      simp [table_to_text, hemp, he, table_to_tabs_strip]
    | plain =>
      simp [table_to_text, hemp, he, table_to_plain_strip]
    | auto =>
      by_cases hv : has_visible_borders t
      · simp [table_to_text, hemp, he, hvis, hv, table_to_ascii_strip]
      · simp [table_to_text, hemp, he, hvis, hv, table_to_tabs_strip]

end TableToText
